import Mathlib

/-! Verification of the `logf` logfmt logger (`src/log.go`).

Shallow embedding conventions:
* byte strings are `List Nat`, one entry per byte (each in `0..255`);
* runes are `Nat` code points; Go's `utf8.RuneError` is the code point `0xFFFD`;
* buffer-append functions of the source are modelled as pure functions that
  return the list of bytes they append; the Go buffer is append-only, so the
  final buffer content is the concatenation of these lists in call order;
* `time.Now()` formatting, `runtime.Caller`, `strconv.AppendFloat` and
  `fmt.Sprintf` outputs are abstracted as explicit byte-string parameters,
  since their internals are outside the scope of this repository.
-/

namespace Logf

/-- The byte of the source's hex table `hex = "0123456789abcdef"` at index `n`
(that is, `hex[n]` for `n < 16`): `'0'..'9'` then `'a'..'f'`. -/
def hexDigit (n : Nat) : Nat :=
  if n < 10 then 48 + n else 87 + n

/-- Lead-byte classification of Go's `unicode/utf8` decoder (the `first` table
together with `acceptRanges`): for a lead byte `b ≥ 0x80`, `some (size, lo, hi)`
means a well-formed sequence of `size` bytes starts with `b` and its second byte
must lie in `[lo, hi]`; `none` marks an invalid lead byte. -/
def utf8Info (b : Nat) : Option (Nat × Nat × Nat) :=
  if 0xC2 ≤ b ∧ b ≤ 0xDF then some (2, 0x80, 0xBF)
  else if b = 0xE0 then some (3, 0xA0, 0xBF)
  else if 0xE1 ≤ b ∧ b ≤ 0xEC then some (3, 0x80, 0xBF)
  else if b = 0xED then some (3, 0x80, 0x9F)
  else if 0xEE ≤ b ∧ b ≤ 0xEF then some (3, 0x80, 0xBF)
  else if b = 0xF0 then some (4, 0x90, 0xBF)
  else if 0xF1 ≤ b ∧ b ≤ 0xF3 then some (4, 0x80, 0xBF)
  else if b = 0xF4 then some (4, 0x80, 0x8F)
  else none

/-- Go's `utf8.DecodeRuneInString`, on byte lists: returns the decoded rune and
the number of bytes consumed.  An empty input yields `(RuneError, 0)`; an
invalid sequence yields `(RuneError, 1)`; third and fourth bytes must be
continuation bytes in `[0x80, 0xBF]`. -/
def decodeRune : List Nat → Nat × Nat
  | [] => (0xFFFD, 0)
  | b0 :: rest =>
    if b0 < 0x80 then (b0, 1)
    else
      match utf8Info b0 with
      | none => (0xFFFD, 1)
      | some (sz, lo, hi) =>
        match rest with
        | [] => (0xFFFD, 1)
        | b1 :: rest1 =>
          if b1 < lo ∨ hi < b1 then (0xFFFD, 1)
          else if sz = 2 then ((b0 % 32) * 64 + b1 % 64, 2)
          else
            match rest1 with
            | [] => (0xFFFD, 1)
            | b2 :: rest2 =>
              if b2 < 0x80 ∨ 0xBF < b2 then (0xFFFD, 1)
              else if sz = 3 then ((b0 % 16) * 4096 + (b1 % 64) * 64 + b2 % 64, 3)
              else
                match rest2 with
                | [] => (0xFFFD, 1)
                | b3 :: _ =>
                  if b3 < 0x80 ∨ 0xBF < b3 then (0xFFFD, 1)
                  else ((b0 % 8) * 262144 + (b1 % 64) * 4096 + (b2 % 64) * 64 + b3 % 64, 4)

/-- Source `checkEscapingRune`: a rune forces quoting iff it is `'='`,
`' '`, `'"'`, or `utf8.RuneError`. -/
def checkEscapingRune (r : Nat) : Bool :=
  r == 61 || r == 32 || r == 34 || r == 0xFFFD

/-- Rune-by-rune scan of a byte string, advancing by the decoded size exactly
the way `strings.IndexFunc` iterates; returns `true` iff some decode step
(rune paired with its byte size) satisfies `f`. -/
def scanSteps (f : Nat × Nat → Bool) : List Nat → Bool
  | [] => false
  | b :: rest =>
    let p := decodeRune (b :: rest)
    f p || scanSteps f (rest.drop (p.2 - 1))
  termination_by s => s.length
  decreasing_by simp [List.length_drop]; omega

/-- Models `strings.IndexFunc(s, checkEscapingRune) != -1` as used by
`escapeAndWriteString`. -/
def hasEscapingRune (s : List Nat) : Bool :=
  scanSteps (fun p => checkEscapingRune p.1) s

/-- The escape emitted by `writeQuotedString` for one ASCII byte that needs
escaping (the body of its `switch`): backslash and double quote are
backslash-escaped, newline, carriage return and tab use their mnemonic escapes,
and any other byte below `0x20` becomes `\u00XX` with two lowercase hex
digits. -/
def escByte (b : Nat) : List Nat :=
  if b = 92 ∨ b = 34 then [92, b]
  else if b = 10 then [92, 110]
  else if b = 13 then [92, 114]
  else if b = 9 then [92, 116]
  else [92, 117, 48, 48, hexDigit (b / 16), hexDigit (b % 16)]

/-- The main loop of `writeQuotedString`: `run` is the pending verbatim run
`s[start:i]`, flushed whenever an escape is emitted and flushed once more at the
end of the input.  Bytes in `[0x20, 0x7F]` other than backslash and quote extend
the run; other ASCII bytes emit `escByte`; a decode step yielding
`utf8.RuneError` emits `�` and skips the step's bytes; a valid multi-byte
sequence extends the run by its bytes. -/
def wqsLoop : List Nat → List Nat → List Nat
  | run, [] => run
  | run, b :: rest =>
    if b < 0x80 then
      if 0x20 ≤ b ∧ b ≠ 92 ∧ b ≠ 34 then wqsLoop (run ++ [b]) rest
      else run ++ escByte b ++ wqsLoop [] rest
    else
      let p := decodeRune (b :: rest)
      if p.1 = 0xFFFD then
        run ++ [92, 117, 102, 102, 102, 100] ++ wqsLoop [] (rest.drop (p.2 - 1))
      else wqsLoop (run ++ (b :: rest).take p.2) (rest.drop (p.2 - 1))
  termination_by _ s => s.length
  decreasing_by
    all_goals simp [List.length_drop]
    all_goals omega

/-- Source `writeQuotedString`: an opening quote, the escaped body, and
a closing quote. -/
def writeQuotedString (s : List Nat) : List Nat :=
  34 :: (wqsLoop [] s ++ [34])

/-- Source `escapeAndWriteString`: scan with `checkEscapingRune`; if any
rune triggers, append the quoted form, otherwise append the raw bytes. -/
def escapeAndWriteString (s : List Nat) : List Nat :=
  if hasEscapingRune s then writeQuotedString s else s

/-! Specification-side definitions.  These are translated from the words of the
spec and of the claims (not from the source) and exist to be compared with the
source-side definitions above. -/

/-- Modelled from the spec (claim C1's description of the quoted body, byte for
byte): backslash and double quote are backslash-escaped, newline, carriage
return and tab become `\n`, `\r`, `\t`, every other byte below `0x20` becomes a
four-hex-digit escape, every invalid (undecodable) sequence — a decode step
returning `(RuneError, 1)` — becomes `�`, and all other bytes, including a
literal U+FFFD character, are copied verbatim. -/
def quotedBodyClaim : List Nat → List Nat
  | [] => []
  | b :: rest =>
    if b < 0x80 then
      if 0x20 ≤ b ∧ b ≠ 92 ∧ b ≠ 34 then b :: quotedBodyClaim rest
      else escByte b ++ quotedBodyClaim rest
    else
      let p := decodeRune (b :: rest)
      if p.1 = 0xFFFD ∧ p.2 = 1 then [92, 117, 102, 102, 102, 100] ++ quotedBodyClaim rest
      else (b :: rest).take p.2 ++ quotedBodyClaim (rest.drop (p.2 - 1))
  termination_by s => s.length
  decreasing_by
    all_goals simp [List.length_drop]
    all_goals omega

/-- Modelled from the spec, as amended: identical to `quotedBodyClaim` except
that every decode step yielding the replacement rune — an invalid sequence or a
literal U+FFFD character — becomes `�`. -/
def quotedBodyAmended : List Nat → List Nat
  | [] => []
  | b :: rest =>
    if b < 0x80 then
      if 0x20 ≤ b ∧ b ≠ 92 ∧ b ≠ 34 then b :: quotedBodyAmended rest
      else escByte b ++ quotedBodyAmended rest
    else
      let p := decodeRune (b :: rest)
      if p.1 = 0xFFFD then [92, 117, 102, 102, 102, 100] ++ quotedBodyAmended (rest.drop (p.2 - 1))
      else (b :: rest).take p.2 ++ quotedBodyAmended (rest.drop (p.2 - 1))
  termination_by s => s.length
  decreasing_by
    all_goals simp [List.length_drop]
    all_goals omega

/-- Modelled from the spec: "the original text, modulo replacement of invalid
sequences" — the input with every decode step that yields the replacement rune
replaced by the UTF-8 bytes `EF BF BD` of U+FFFD (on a literal U+FFFD this is
the identity). -/
def replaceInvalid : List Nat → List Nat
  | [] => []
  | b :: rest =>
    if b < 0x80 then b :: replaceInvalid rest
    else
      let p := decodeRune (b :: rest)
      if p.1 = 0xFFFD then [239, 191, 189] ++ replaceInvalid (rest.drop (p.2 - 1))
      else (b :: rest).take p.2 ++ replaceInvalid (rest.drop (p.2 - 1))
  termination_by s => s.length
  decreasing_by
    all_goals simp [List.length_drop]
    all_goals omega

/-- Numeric value of an ASCII hex digit (`0-9`, `a-f`, `A-F`). -/
def hexVal (c : Nat) : Option Nat :=
  if 48 ≤ c ∧ c ≤ 57 then some (c - 48)
  else if 97 ≤ c ∧ c ≤ 102 then some (c - 87)
  else if 65 ≤ c ∧ c ≤ 70 then some (c - 55)
  else none

/-- Standard UTF-8 encoding of a code point, as a byte list. -/
def utf8Encode (v : Nat) : List Nat :=
  if v < 0x80 then [v]
  else if v < 0x800 then [0xC0 + v / 64, 0x80 + v % 64]
  else if v < 0x10000 then [0xE0 + v / 4096, 0x80 + (v / 64) % 64, 0x80 + v % 64]
  else [0xF0 + v / 262144, 0x80 + (v / 4096) % 64, 0x80 + (v / 64) % 64, 0x80 + v % 64]

/-- Modelled from the spec: unescaping of the body of a quoted value ("a
round-trippable quoted string: unescaping yields the original text").  Consumes
bytes up to a closing double quote, which must end the input; a backslash
introduces one of the escapes of the spec's escaping table (`\\`, `\"`, `\n`,
`\r`, `\t`, or `\uXXXX` whose code point is re-encoded in UTF-8); every other
byte stands for itself.  Returns `none` if the input is not a well-formed
escaped body followed by a final quote. -/
def unq : List Nat → Option (List Nat)
  | [] => none
  | b :: rest =>
    if b = 34 then if rest = [] then some [] else none
    else if b = 92 then
      match rest with
      | [] => none
      | e :: r =>
        if e = 92 then (unq r).map (fun t => 92 :: t)
        else if e = 34 then (unq r).map (fun t => 34 :: t)
        else if e = 110 then (unq r).map (fun t => 10 :: t)
        else if e = 114 then (unq r).map (fun t => 13 :: t)
        else if e = 116 then (unq r).map (fun t => 9 :: t)
        else if e = 117 then
          match r with
          | h1 :: h2 :: h3 :: h4 :: r2 =>
            match hexVal h1, hexVal h2, hexVal h3, hexVal h4 with
            | some v1, some v2, some v3, some v4 =>
              (unq r2).map (fun t => utf8Encode (((v1 * 16 + v2) * 16 + v3) * 16 + v4) ++ t)
            | _, _, _, _ => none
          | _ => none
        else none
    else (unq rest).map (fun t => b :: t)

/-- Modelled from the spec: unescaping of a full quoted value — an opening
double quote followed by an escaped body and a closing quote. -/
def unquote : List Nat → Option (List Nat)
  | 34 :: rest => unq rest
  | _ => none

/-! Scan-step predicates and lemmas.  The three predicates below are modelled
from the spec's vocabulary (`=`/space/quote characters, invalid/undecodable
sequences) and split the source's `checkEscapingRune` trigger. -/

/-- Modelled from the spec: a decode step whose rune is `'='`, `' '` or `'"'`. -/
def isTrigCharStep (p : Nat × Nat) : Bool :=
  p.1 == 61 || p.1 == 32 || p.1 == 34

/-- Modelled from the spec: an invalid/undecodable byte-sequence step — the
decoder yields the replacement rune consuming a single byte. -/
def isInvalidStep (p : Nat × Nat) : Bool :=
  p.1 == 0xFFFD && p.2 == 1

/-- Modelled from the spec's gap: a decode step that reads a literal U+FFFD
replacement character — a valid multi-byte sequence whose rune equals
`utf8.RuneError`. -/
def isFFFDCharStep (p : Nat × Nat) : Bool :=
  p.1 == 0xFFFD && p.2 != 1

/-- Modelled from the claim C5: a decode step reading a control rune below
0x20 (for ASCII bytes this is exactly a control byte). -/
def isControlStep (p : Nat × Nat) : Bool :=
  p.1 < 32

/-! The logger model: fixed keys, severities, colors, field values, the
per-field writers and `handleLog`. -/

/-- The bytes of `tsKey = "timestamp="` (note the trailing `'='`). -/
def tsKey : List Nat := [116, 105, 109, 101, 115, 116, 97, 109, 112, 61]

/-- The bytes of `scopeKey = "sc"`. -/
def scopeKey : List Nat := [115, 99]

/-- The bytes of the fixed key `"level"`. -/
def levelKey : List Nat := [108, 101, 118, 101, 108]

/-- The bytes of the fixed key `"message"`. -/
def messageKey : List Nat := [109, 101, 115, 115, 97, 103, 101]

/-- The bytes of the fixed key `"caller"`. -/
def callerKey : List Nat := [99, 97, 108, 108, 101, 114]

/-- ANSI reset `"\033[0m"`. -/
def reset : List Nat := [27, 91, 48, 109]

/-- ANSI purple `"\033[35m"`. -/
def purple : List Nat := [27, 91, 51, 53, 109]

/-- ANSI red `"\033[31m"`. -/
def red : List Nat := [27, 91, 51, 49, 109]

/-- ANSI yellow `"\033[33m"`. -/
def yellow : List Nat := [27, 91, 51, 51, 109]

/-- ANSI cyan `"\033[36m"`. -/
def cyan : List Nat := [27, 91, 51, 54, 109]

/-- Source `Level.String()`: the severity's fixed lowercase name for levels 0–4
(`debug`, `info`, `warn`, `error`, `fatal`), `"invalid lvl"` otherwise.
Severity is modelled as a `Nat` with debug = 0 through fatal = 4. -/
def levelString (lvl : Nat) : List Nat :=
  if lvl = 0 then [100, 101, 98, 117, 103]
  else if lvl = 1 then [105, 110, 102, 111]
  else if lvl = 2 then [119, 97, 114, 110]
  else if lvl = 3 then [101, 114, 114, 111, 114]
  else if lvl = 4 then [102, 97, 116, 97, 108]
  else [105, 110, 118, 97, 108, 105, 100, 32, 108, 118, 108]

/-- Source `colorLvlMap`: the display color of each severity.  In Go this is an array
indexed by the level; indexing past 4 would panic, which is unreachable from
the five entry points — modelled as `[]` there. -/
def colorLvlMap (lvl : Nat) : List Nat :=
  if lvl = 0 then purple
  else if lvl = 1 then cyan
  else if lvl = 2 then yellow
  else if lvl = 3 then red
  else if lvl = 4 then red
  else []

/-- Source `getColoredKey`: the level's color code, the key, then the reset code. -/
def getColoredKey (k : List Nat) (lvl : Nat) : List Nat :=
  colorLvlMap lvl ++ k ++ reset

/-- Decimal digits of `n` (fuel-bounded helper; any fuel above the digit count
gives the same result, and `itoa` supplies `n + 1`). -/
def itoaDigits : Nat → Nat → List Nat
  | 0, _ => []
  | fuel + 1, n => if n < 10 then [48 + n] else itoaDigits fuel (n / 10) ++ [48 + n % 10]

/-- Go `strconv.Itoa` on naturals: ASCII decimal representation. -/
def itoa (n : Nat) : List Nat := itoaDigits (n + 1) n

/-- Go `strconv.AppendInt` base 10 on a signed integer. -/
def appendInt (i : Int) : List Nat :=
  if i < 0 then 45 :: itoa i.natAbs else itoa i.toNat

/-- Source `caller(depth)`: `file + ":" + strconv.Itoa(line)`.  `frame` stands for the
result of `runtime.Caller(depth)`; when the walk fails (`none`) the source
substitutes `file = "???"` and `line = 0`. -/
def caller (frame : Option (List Nat × Nat)) : List Nat :=
  match frame with
  | some (file, line) => file ++ [58] ++ itoa line
  | none => [63, 63, 63] ++ [58] ++ itoa 0

/-- A field value of `Fields = map[string]any`, restricted to the closed set of
kinds `writeToBuf` dispatches on.  The integer widths `int`, `int16`, `int32`,
`int64` collapse to one constructor since all four cases call `AppendInt`;
`float` carries the bytes `strconv.AppendFloat` would produce (formatting
abstracted); `stringer` carries the bytes of `v.String()`; `other` carries the
bytes of `fmt.Sprintf("%v", val)` (generic default formatting, abstracted). -/
inductive FieldValue
  | str : List Nat → FieldValue
  | int : Int → FieldValue
  | float : List Nat → FieldValue
  | stringer : List Nat → FieldValue
  | other : List Nat → FieldValue
deriving DecidableEq

/-- The value part of `writeToBuf`'s type switch: strings, stringer results and
the default `fmt.Sprintf` fallback go through `escapeAndWriteString`; integers
and floats are appended directly by the strconv appenders. -/
def writeValue : FieldValue → List Nat
  | .str s => escapeAndWriteString s
  | .int i => appendInt i
  | .float s => s
  | .stringer s => escapeAndWriteString s
  | .other s => escapeAndWriteString s

/-- Source `writeToBuf`: the (possibly colored) key through `escapeAndWriteString`,
`'='`, the value by kind, and a trailing space when `space` is set. -/
def writeToBuf (key : List Nat) (val : FieldValue) (lvl : Nat) (color space : Bool) : List Nat :=
  (if color then escapeAndWriteString (getColoredKey key lvl) else escapeAndWriteString key) ++
    [61] ++ writeValue val ++ (if space then [32] else [])

/-- Source `writeStringToBuf`: like `writeToBuf` with a string value. -/
def writeStringToBuf (key val : List Nat) (lvl : Nat) (color space : Bool) : List Nat :=
  (if color then escapeAndWriteString (getColoredKey key lvl) else escapeAndWriteString key) ++
    [61] ++ escapeAndWriteString val ++ (if space then [32] else [])

/-- Source `writeTimeToBuf`: the (possibly colored) `tsKey`, appended with no
escaping, then the formatted timestamp (`now` stands for the bytes of
`AppendTime(time.Now(), format)`), then a space. -/
def writeTimeToBuf (now : List Nat) (lvl : Nat) (color : Bool) : List Nat :=
  (if color then getColoredKey tsKey lvl else tsKey) ++ now ++ [32]

/-- The `for k, v := range fields` loop of `handleLog`: every field but the
last gets a trailing space (`space = count != len(fields)-1`).  Go's map
iteration order is unspecified; the model writes the fields in association-list
order. -/
def fieldsLoop (fields : List (List Nat × FieldValue)) (lvl : Nat) (color : Bool) : List Nat :=
  match fields with
  | [] => []
  | (k, v) :: rest => writeToBuf k v lvl color (!rest.isEmpty) ++ fieldsLoop rest lvl color

/-- Observable effects of one `handleLog` call: whether a pool buffer was
acquired, whether `time.Now()` was captured, the byte strings handed to the
sink's `Write`, the fallback diagnostics printed via the standard logger on a
write error, and whether the buffer was reset and returned to the pool. -/
structure EmitResult where
  bufferAcquired : Bool
  timestampCaptured : Bool
  sinkWrites : List (List Nat)
  diagnostics : List (List Nat)
  bufferReset : Bool
  bufferReturned : Bool
deriving DecidableEq

/-- The result of a filtered-out call: nothing at all happens. -/
def emptyEmit : EmitResult :=
  { bufferAcquired := false, timestampCaptured := false, sinkWrites := [],
    diagnostics := [], bufferReset := false, bufferReturned := false }

/-- The fallback diagnostic `stdlog.Printf("error logging: %v", err)` — the
bytes `"error logging: "` followed by the error text (the standard logger's own
date prefix abstracted away). -/
def errorLoggingMsg (e : List Nat) : List Nat :=
  [101, 114, 114, 111, 114, 32, 108, 111, 103, 103, 105, 110, 103, 58, 32] ++ e

/-- Logger configuration.  `out`, `tsFormat` and `callerSkipFrameCount` are
abstracted: the sink's behaviour enters `handleLog` as the `sinkErr` parameter
(`none` = write succeeded), the formatted timestamp as `now`, and the resolved
caller frame as `frame`. -/
structure Logger where
  level : Nat
  enableColor : Bool
  enableCaller : Bool
  scope : List Nat

/-- Source `handleLog`: return immediately when `lvl < l.level`; otherwise acquire a
buffer, write the fixed fields (timestamp, level, message, scope), the caller
field when enabled, the variable fields, and a newline; hand the line to the
sink; report a write error to the fallback logger; reset and return the
buffer. -/
def handleLog (l : Logger) (msg : List Nat) (lvl : Nat)
    (fields : List (List Nat × FieldValue)) (now : List Nat)
    (frame : Option (List Nat × Nat)) (sinkErr : Option (List Nat)) : EmitResult :=
  if lvl < l.level then emptyEmit
  else
    { bufferAcquired := true
      timestampCaptured := true
      sinkWrites := [writeTimeToBuf now lvl l.enableColor ++
        writeToBuf levelKey (.stringer (levelString lvl)) lvl l.enableColor true ++
        writeStringToBuf messageKey msg lvl l.enableColor true ++
        writeStringToBuf scopeKey l.scope lvl l.enableColor true ++
        (if l.enableCaller then
          writeToBuf callerKey (.str (caller frame)) lvl l.enableColor true else []) ++
        fieldsLoop fields lvl l.enableColor ++ [10]]
      diagnostics := match sinkErr with | some e => [errorLoggingMsg e] | none => []
      bufferReset := true
      bufferReturned := true }

/-- Source `Debug`: emits at level 0.  The second component models the `os.Exit`
status (`none` = the call returns). -/
def Debug (l : Logger) (msg now : List Nat) (frame : Option (List Nat × Nat))
    (sinkErr : Option (List Nat)) : EmitResult × Option Nat :=
  (handleLog l msg 0 [] now frame sinkErr, none)

/-- Source `Info`: emits at level 1, returns. -/
def Info (l : Logger) (msg now : List Nat) (frame : Option (List Nat × Nat))
    (sinkErr : Option (List Nat)) : EmitResult × Option Nat :=
  (handleLog l msg 1 [] now frame sinkErr, none)

/-- Source `Warn`: emits at level 2, returns. -/
def Warn (l : Logger) (msg now : List Nat) (frame : Option (List Nat × Nat))
    (sinkErr : Option (List Nat)) : EmitResult × Option Nat :=
  (handleLog l msg 2 [] now frame sinkErr, none)

/-- Source `Error`: emits at level 3, returns. -/
def Error (l : Logger) (msg now : List Nat) (frame : Option (List Nat × Nat))
    (sinkErr : Option (List Nat)) : EmitResult × Option Nat :=
  (handleLog l msg 3 [] now frame sinkErr, none)

/-- Source `Fatal`: emits at level 4 and then calls `os.Exit(1)` unconditionally. -/
def Fatal (l : Logger) (msg now : List Nat) (frame : Option (List Nat × Nat))
    (sinkErr : Option (List Nat)) : EmitResult × Option Nat :=
  (handleLog l msg 4 [] now frame sinkErr, some 1)

/-- Single-space join of a list of field tokens. -/
def joinSpace : List (List Nat) → List Nat
  | [] => []
  | [t] => t
  | t :: ts => t ++ [32] ++ joinSpace ts

/-- Modelled from the claim (C4): the emitted line as the single-space join of
all field tokens — the fixed fields, the caller field when enabled, then the
variable fields, each token carrying no trailing separator — terminated by
exactly one newline. -/
def lineClaim (l : Logger) (msg : List Nat) (lvl : Nat)
    (fields : List (List Nat × FieldValue)) (now : List Nat)
    (frame : Option (List Nat × Nat)) : List Nat :=
  joinSpace ([(if l.enableColor then getColoredKey tsKey lvl else tsKey) ++ now,
    writeToBuf levelKey (.stringer (levelString lvl)) lvl l.enableColor false,
    writeStringToBuf messageKey msg lvl l.enableColor false,
    writeStringToBuf scopeKey l.scope lvl l.enableColor false] ++
    (if l.enableCaller then
      [writeToBuf callerKey (.str (caller frame)) lvl l.enableColor false] else []) ++
    fields.map (fun kv => writeToBuf kv.1 kv.2 lvl l.enableColor false)) ++ [10]

/-- Modelled from the claim C4 as amended: the same single-space join of the
field tokens, but with a lone trailing space before the newline exactly when
the variable-field map is empty (every fixed field appends a trailing space;
only the last variable field omits it). -/
def lineAmended (l : Logger) (msg : List Nat) (lvl : Nat)
    (fields : List (List Nat × FieldValue)) (now : List Nat)
    (frame : Option (List Nat × Nat)) : List Nat :=
  joinSpace ([(if l.enableColor then getColoredKey tsKey lvl else tsKey) ++ now,
    writeToBuf levelKey (.stringer (levelString lvl)) lvl l.enableColor false,
    writeStringToBuf messageKey msg lvl l.enableColor false,
    writeStringToBuf scopeKey l.scope lvl l.enableColor false] ++
    (if l.enableCaller then
      [writeToBuf callerKey (.str (caller frame)) lvl l.enableColor false] else []) ++
    fields.map (fun kv => writeToBuf kv.1 kv.2 lvl l.enableColor false)) ++
    (if fields.isEmpty then [32] else []) ++ [10]

/-- The caller-supplied bytes carried by a field value (empty for integers,
whose rendering is generated entirely by the encoder). -/
def fvInput : FieldValue → List Nat
  | .str s => s
  | .int _ => []
  | .float s => s
  | .stringer s => s
  | .other s => s

/-! Lemmas about the escaping core. -/

/-- Induction along the decode steps of a byte string: prove `P []`, and derive
`P (b :: rest)` from `P` of the remainder after the decode step at `b` and from
`P rest`. -/
theorem stepInduction {P : List Nat → Prop} (h0 : P [])
    (h1 : ∀ b rest, P (rest.drop ((decodeRune (b :: rest)).2 - 1)) → P rest → P (b :: rest)) :
    ∀ s, P s := by
  suffices h : ∀ n (s : List Nat), s.length ≤ n → P s by
    intro s; exact h s.length s le_rfl
  intro n
  induction n with
  | zero =>
    intro s hs
    match s with
    | [] => exact h0
  | succ n ih =>
    intro s hs
    match s with
    | [] => exact h0
    | b :: rest =>
      simp only [List.length_cons] at hs
      refine h1 b rest (ih _ ?_) (ih rest (by omega))
      simp only [List.length_drop]
      omega

theorem utf8Info_facts {b sz lo hi : Nat} (h : utf8Info b = some (sz, lo, hi)) :
    0x80 ≤ b ∧ 0x80 ≤ lo ∧ (sz = 2 ∨ sz = 3 ∨ sz = 4) := by
  unfold utf8Info at h
  split_ifs at h <;> simp_all <;> omega

/-- A decode step at a non-ASCII byte that does not yield the replacement rune
consumes at least two bytes, stays within the input, and consumes only bytes
`≥ 0x80`. -/
theorem decodeRune_valid_facts {b : Nat} {rest : List Nat}
    (hb : ¬ b < 0x80) (hf : (decodeRune (b :: rest)).1 ≠ 0xFFFD) :
    2 ≤ (decodeRune (b :: rest)).2 ∧ (decodeRune (b :: rest)).2 - 1 ≤ rest.length ∧
      ∀ x ∈ (b :: rest).take (decodeRune (b :: rest)).2, 0x80 ≤ x := by
  rcases hI : utf8Info b with _ | ⟨sz, lo, hi⟩
  · exact absurd (by simp [decodeRune, hb, hI]) hf
  · obtain ⟨hb128, hlo, hsz⟩ := utf8Info_facts hI
    match rest with
    | [] => exact absurd (by simp [decodeRune, hb, hI]) hf
    | b1 :: rest1 =>
      by_cases h1 : b1 < lo ∨ hi < b1
      · exact absurd (by simp [decodeRune, hb, hI, h1]) hf
      · rcases hsz with h | h | h <;> subst h
        · have hD : decodeRune (b :: b1 :: rest1) = ((b % 32) * 64 + b1 % 64, 2) := by
            simp [decodeRune, hb, hI, h1]
          rw [hD]
          refine ⟨by omega, by simp only [List.length_cons]; omega, ?_⟩
          intro x hx
          simp only [List.take_succ_cons, List.take_zero, List.mem_cons,
            List.not_mem_nil, or_false] at hx
          rcases hx with h | h <;> omega
        · match rest1 with
          | [] => exact absurd (by simp [decodeRune, hb, hI, h1]) hf
          | b2 :: rest2 =>
            by_cases h2 : b2 < 0x80 ∨ 0xBF < b2
            · exact absurd (by simp [decodeRune, hb, hI, h1, h2]) hf
            · have hD : decodeRune (b :: b1 :: b2 :: rest2)
                  = ((b % 16) * 4096 + (b1 % 64) * 64 + b2 % 64, 3) := by
                simp [decodeRune, hb, hI, h1, h2]
              rw [hD]
              refine ⟨by omega, by simp only [List.length_cons]; omega, ?_⟩
              intro x hx
              simp only [List.take_succ_cons, List.take_zero, List.mem_cons,
                List.not_mem_nil, or_false] at hx
              rcases hx with h | h | h <;> omega
        · match rest1 with
          | [] => exact absurd (by simp [decodeRune, hb, hI, h1]) hf
          | b2 :: rest2 =>
            by_cases h2 : b2 < 0x80 ∨ 0xBF < b2
            · exact absurd (by simp [decodeRune, hb, hI, h1, h2]) hf
            · match rest2 with
              | [] => exact absurd (by simp [decodeRune, hb, hI, h1, h2]) hf
              | b3 :: rest3 =>
                by_cases h3 : b3 < 0x80 ∨ 0xBF < b3
                · exact absurd (by simp [decodeRune, hb, hI, h1, h2, h3]) hf
                · have hD : decodeRune (b :: b1 :: b2 :: b3 :: rest3)
                      = ((b % 8) * 262144 + (b1 % 64) * 4096 + (b2 % 64) * 64 + b3 % 64, 4) := by
                    simp [decodeRune, hb, hI, h1, h2, h3]
                  rw [hD]
                  refine ⟨by omega, by simp only [List.length_cons]; omega, ?_⟩
                  intro x hx
                  simp only [List.take_succ_cons, List.take_zero, List.mem_cons,
                    List.not_mem_nil, or_false] at hx
                  rcases hx with h | h | h | h <;> omega

theorem unq_cons_plain {b : Nat} (h34 : b ≠ 34) (h92 : b ≠ 92) (t : List Nat) :
    unq (b :: t) = (unq t).map (fun r => b :: r) := by
  rw [unq.eq_def]
  simp [h34, h92]

theorem unq_esc_backslash (t : List Nat) :
    unq (92 :: 92 :: t) = (unq t).map (fun r => 92 :: r) := by
  rw [unq.eq_def]
  simp

theorem unq_esc_quote (t : List Nat) :
    unq (92 :: 34 :: t) = (unq t).map (fun r => 34 :: r) := by
  rw [unq.eq_def]
  simp

theorem unq_esc_newline (t : List Nat) :
    unq (92 :: 110 :: t) = (unq t).map (fun r => 10 :: r) := by
  rw [unq.eq_def]
  simp

theorem unq_esc_cr (t : List Nat) :
    unq (92 :: 114 :: t) = (unq t).map (fun r => 13 :: r) := by
  rw [unq.eq_def]
  simp

theorem unq_esc_tab (t : List Nat) :
    unq (92 :: 116 :: t) = (unq t).map (fun r => 9 :: r) := by
  rw [unq.eq_def]
  simp

theorem unq_esc_u {h1 h2 h3 h4 v1 v2 v3 v4 : Nat}
    (e1 : hexVal h1 = some v1) (e2 : hexVal h2 = some v2)
    (e3 : hexVal h3 = some v3) (e4 : hexVal h4 = some v4) (t : List Nat) :
    unq (92 :: 117 :: h1 :: h2 :: h3 :: h4 :: t) =
      (unq t).map (fun r => utf8Encode (((v1 * 16 + v2) * 16 + v3) * 16 + v4) ++ r) := by
  rw [unq.eq_def]
  simp [e1, e2, e3, e4]

theorem unq_append_hi : ∀ (l t : List Nat), (∀ x ∈ l, 0x80 ≤ x) →
    unq (l ++ t) = (unq t).map (fun r => l ++ r) := by
  intro l
  induction l with
  | nil =>
    intro t _
    simp only [List.nil_append]
    cases h : unq t <;> simp [h]
  | cons x l ih =>
    intro t hx
    have hx0 : 0x80 ≤ x := hx x (by simp)
    rw [List.cons_append, unq_cons_plain (by omega) (by omega),
      ih t (fun y hy => hx y (by simp [hy]))]
    cases h : unq t <;> simp [h]

theorem hexVal_hexDigit {n : Nat} (h : n < 16) : hexVal (hexDigit n) = some n := by
  interval_cases n <;> decide

theorem hexVal_48 : hexVal 48 = some 0 := by decide

theorem hexVal_100 : hexVal 100 = some 13 := by decide

theorem hexVal_102 : hexVal 102 = some 15 := by decide

theorem utf8Encode_fffd : utf8Encode 0xFFFD = [239, 191, 189] := by decide

/-- The run-accumulator loop of `writeQuotedString` produces the pending run
followed by the byte-for-byte escaped body. -/
theorem wqsLoop_eq : ∀ s run, wqsLoop run s = run ++ quotedBodyAmended s := by
  intro s
  induction s using stepInduction with
  | h0 => intro run; simp [wqsLoop, quotedBodyAmended]
  | h1 b rest ihD ihR =>
    intro run
    by_cases hb : b < 0x80
    · by_cases hp : 0x20 ≤ b ∧ b ≠ 92 ∧ b ≠ 34
      · simp only [wqsLoop, quotedBodyAmended, if_pos hb, if_pos hp]
        rw [ihR]
        simp
      · simp only [wqsLoop, quotedBodyAmended, if_pos hb, if_neg hp]
        rw [ihR]
        simp
    · by_cases hf : (decodeRune (b :: rest)).1 = 0xFFFD
      · simp only [wqsLoop, quotedBodyAmended, if_neg hb, hf, reduceIte]
        rw [ihD]
        simp
      · simp only [wqsLoop, quotedBodyAmended, if_neg hb, hf, reduceIte]
        rw [ihD]
        simp

/-- Unescaping the escaped body (followed by its closing quote) recovers the
input, modulo replacement of the steps that decode to the replacement rune. -/
theorem unq_quotedBodyAmended : ∀ s, unq (quotedBodyAmended s ++ [34]) = some (replaceInvalid s) := by
  intro s
  induction s using stepInduction with
  | h0 => simp [quotedBodyAmended, replaceInvalid, unq]
  | h1 b rest ihD ihR =>
    by_cases hb : b < 0x80
    · by_cases hp : 0x20 ≤ b ∧ b ≠ 92 ∧ b ≠ 34
      · simp only [quotedBodyAmended, replaceInvalid, if_pos hb, if_pos hp, List.cons_append]
        rw [unq_cons_plain (by omega) (by omega), ihR]
        rfl
      · simp only [quotedBodyAmended, replaceInvalid, if_pos hb, if_neg hp, List.append_assoc]
        by_cases hq : b = 92 ∨ b = 34
        · rcases hq with h | h <;> subst h
          · rw [show escByte 92 = [92, 92] from rfl]
            simp only [List.cons_append, List.nil_append]
            rw [unq_esc_backslash, ihR]
            rfl
          · rw [show escByte 34 = [92, 34] from rfl]
            simp only [List.cons_append, List.nil_append]
            rw [unq_esc_quote, ihR]
            rfl
        · push_neg at hq
          by_cases h10 : b = 10
          · subst h10
            rw [show escByte 10 = [92, 110] from rfl]
            simp only [List.cons_append, List.nil_append]
            rw [unq_esc_newline, ihR]
            rfl
          · by_cases h13 : b = 13
            · subst h13
              rw [show escByte 13 = [92, 114] from rfl]
              simp only [List.cons_append, List.nil_append]
              rw [unq_esc_cr, ihR]
              rfl
            · by_cases h9 : b = 9
              · subst h9
                rw [show escByte 9 = [92, 116] from rfl]
                simp only [List.cons_append, List.nil_append]
                rw [unq_esc_tab, ihR]
                rfl
              · have hlt : b < 0x20 := by omega
                rw [show escByte b = [92, 117, 48, 48, hexDigit (b / 16), hexDigit (b % 16)] by
                  simp [escByte, hq.1, hq.2, h10, h13, h9]]
                simp only [List.cons_append, List.nil_append]
                rw [unq_esc_u hexVal_48 hexVal_48
                  (hexVal_hexDigit (by omega)) (hexVal_hexDigit (by omega)), ihR]
                have hval : ((0 * 16 + 0) * 16 + b / 16) * 16 + b % 16 = b := by omega
                rw [hval, show utf8Encode b = [b] by simp [utf8Encode]; omega]
                rfl
    · by_cases hf : (decodeRune (b :: rest)).1 = 0xFFFD
      · simp only [quotedBodyAmended, replaceInvalid, if_neg hb, hf, reduceIte,
          List.append_assoc, List.cons_append, List.nil_append]
        rw [unq_esc_u hexVal_102 hexVal_102 hexVal_102 hexVal_100, ihD]
        rw [show ((15 * 16 + 15) * 16 + 15) * 16 + 13 = 0xFFFD by norm_num, utf8Encode_fffd]
        rfl
      · obtain ⟨-, -, hmem⟩ := decodeRune_valid_facts hb hf
        simp only [quotedBodyAmended, replaceInvalid, if_neg hb, hf, reduceIte,
          List.append_assoc]
        rw [unq_append_hi _ _ hmem, ihD]
        rfl

/-- The quoted form is the amended escaped body wrapped in double quotes. -/
theorem writeQuotedString_eq (s : List Nat) :
    writeQuotedString s = 34 :: (quotedBodyAmended s ++ [34]) := by
  rw [writeQuotedString, wqsLoop_eq]
  simp

/-- Unescaping the quoted form recovers the input modulo replacement of the
steps that decode to the replacement rune. -/
theorem unquote_writeQuotedString (s : List Nat) :
    unquote (writeQuotedString s) = some (replaceInvalid s) := by
  rw [writeQuotedString_eq]
  show unq (quotedBodyAmended s ++ [34]) = some (replaceInvalid s)
  exact unq_quotedBodyAmended s

theorem scanSteps_cons (f : Nat × Nat → Bool) (b : Nat) (rest : List Nat) :
    scanSteps f (b :: rest) =
      (f (decodeRune (b :: rest)) ||
        scanSteps f (rest.drop ((decodeRune (b :: rest)).2 - 1))) := by
  rw [scanSteps]

theorem scanSteps_congr {f g : Nat × Nat → Bool} (h : ∀ p, f p = g p) :
    ∀ s, scanSteps f s = scanSteps g s := by
  intro s
  induction s using stepInduction with
  | h0 => rw [scanSteps, scanSteps]
  | h1 b rest ihD ihR => rw [scanSteps_cons, scanSteps_cons, h, ihD]

theorem scanSteps_or (f g : Nat × Nat → Bool) :
    ∀ s, scanSteps (fun p => f p || g p) s = (scanSteps f s || scanSteps g s) := by
  intro s
  induction s using stepInduction with
  | h0 => rw [scanSteps, scanSteps, scanSteps]; rfl
  | h1 b rest ihD ihR =>
    rw [scanSteps_cons, scanSteps_cons, scanSteps_cons, ihD]
    cases f (decodeRune (b :: rest)) <;> cases g (decodeRune (b :: rest)) <;> simp

/-- The source's quoting trigger is exactly: a trigger character, an invalid
sequence, or a literal U+FFFD character. -/
theorem checkEscapingRune_split (p : Nat × Nat) :
    checkEscapingRune p.1 = (isTrigCharStep p || (isInvalidStep p || isFFFDCharStep p)) := by
  rcases p with ⟨r, sz⟩
  simp only [checkEscapingRune, isTrigCharStep, isInvalidStep, isFFFDCharStep]
  cases h : (sz == 1) <;> cases h61 : (r == 61) <;> cases h32 : (r == 32) <;>
    cases h34 : (r == 34) <;> cases hfd : (r == 65533) <;> simp_all

/-- Lemma: `hasEscapingRune` decomposed into the spec's three reasons for quoting. -/
theorem hasEscapingRune_split (s : List Nat) :
    hasEscapingRune s =
      (scanSteps isTrigCharStep s ||
        (scanSteps isInvalidStep s || scanSteps isFFFDCharStep s)) := by
  rw [hasEscapingRune,
    scanSteps_congr (fun p => checkEscapingRune_split p) s,
    scanSteps_congr (fun p => rfl :
      ∀ p, (fun q => isTrigCharStep q || (isInvalidStep q || isFFFDCharStep q)) p
        = (fun q => isTrigCharStep q || ((fun x => isInvalidStep x || isFFFDCharStep x) q)) p) s,
    scanSteps_or, scanSteps_or]

/-- The fast path: when no rune triggers, the raw input is appended. -/
theorem escapeAndWriteString_fast {s : List Nat} (h : hasEscapingRune s = false) :
    escapeAndWriteString s = s := by
  simp [escapeAndWriteString, h]

/-- A valid decode step is unaffected by appending further bytes. -/
theorem decodeRune_append {l : List Nat} (t : List Nat)
    (h : (decodeRune l).1 ≠ 0xFFFD) :
    decodeRune (l ++ t) = decodeRune l := by
  match l with
  | [] => exact absurd (by simp [decodeRune]) h
  | b0 :: rest =>
    by_cases hb : b0 < 0x80
    · simp [decodeRune, hb]
    · rcases hI : utf8Info b0 with _ | ⟨sz, lo, hi⟩
      · exact absurd (by simp [decodeRune, hb, hI]) h
      · obtain ⟨-, -, hsz⟩ := utf8Info_facts hI
        match rest with
        | [] => exact absurd (by simp [decodeRune, hb, hI]) h
        | b1 :: rest1 =>
          by_cases h1 : b1 < lo ∨ hi < b1
          · exact absurd (by simp [decodeRune, hb, hI, h1]) h
          · rcases hsz with hs | hs | hs <;> subst hs
            · simp [decodeRune, hb, hI, h1]
            · match rest1 with
              | [] => exact absurd (by simp [decodeRune, hb, hI, h1]) h
              | b2 :: rest2 =>
                by_cases h2 : b2 < 0x80 ∨ 0xBF < b2
                · exact absurd (by simp [decodeRune, hb, hI, h1, h2]) h
                · simp [decodeRune, hb, hI, h1, h2]
            · match rest1 with
              | [] => exact absurd (by simp [decodeRune, hb, hI, h1]) h
              | b2 :: rest2 =>
                by_cases h2 : b2 < 0x80 ∨ 0xBF < b2
                · exact absurd (by simp [decodeRune, hb, hI, h1, h2]) h
                · match rest2 with
                  | [] => exact absurd (by simp [decodeRune, hb, hI, h1, h2]) h
                  | b3 :: rest3 =>
                    by_cases h3 : b3 < 0x80 ∨ 0xBF < b3
                    · exact absurd (by simp [decodeRune, hb, hI, h1, h2, h3]) h
                    · simp [decodeRune, hb, hI, h1, h2, h3]

/-- Scanning skips over a clean prefix: if no rune of `s` triggers, the scan of
`s ++ t` is the scan of `t`. -/
theorem hasEscapingRune_append_clean {s : List Nat} (t : List Nat)
    (h : hasEscapingRune s = false) :
    hasEscapingRune (s ++ t) = hasEscapingRune t := by
  induction s using stepInduction with
  | h0 => simp
  | h1 b rest ihD ihR =>
    rw [hasEscapingRune, scanSteps_cons] at h
    rcases Bool.or_eq_false_iff.mp h with ⟨hc, hrest⟩
    by_cases hb : b < 0x80
    · have hD : decodeRune (b :: rest) = (b, 1) := by simp [decodeRune, hb]
      rw [hD] at hc hrest
      simp only [List.drop_zero] at hrest
      rw [List.cons_append, hasEscapingRune, scanSteps_cons]
      have hD2 : decodeRune (b :: (rest ++ t)) = (b, 1) := by simp [decodeRune, hb]
      rw [hD2, hc]
      simpa using ihR hrest
    · have hne : (decodeRune (b :: rest)).1 ≠ 0xFFFD := by
        intro hfd
        rw [checkEscapingRune, hfd] at hc
        simp at hc
      obtain ⟨-, hlen, -⟩ := decodeRune_valid_facts hb hne
      rw [List.cons_append, hasEscapingRune, scanSteps_cons,
        show (b :: (rest ++ t)) = (b :: rest) ++ t from rfl, decodeRune_append t hne, hc,
        List.drop_append_of_le_length hlen]
      simpa [hasEscapingRune] using ihD hrest

/-- Scanning skips over an ASCII prefix none of whose bytes trigger. -/
theorem hasEscapingRune_append_ascii :
    ∀ (a t : List Nat), (∀ x ∈ a, x < 0x80 ∧ checkEscapingRune x = false) →
      hasEscapingRune (a ++ t) = hasEscapingRune t := by
  intro a
  induction a with
  | nil => intro t _; simp
  | cons x a ih =>
    intro t hx
    obtain ⟨hlt, hck⟩ := hx x (by simp)
    have hD : decodeRune (x :: (a ++ t)) = (x, 1) := by simp [decodeRune, hlt]
    rw [List.cons_append, hasEscapingRune, scanSteps_cons, hD, hck]
    simpa [hasEscapingRune] using ih t (fun y hy => hx y (by simp [hy]))

/-! Lemmas about the line assembler. -/

theorem writeToBuf_space (k : List Nat) (v : FieldValue) (lvl : Nat) (color : Bool) :
    writeToBuf k v lvl color true = writeToBuf k v lvl color false ++ [32] := by
  simp [writeToBuf]

theorem writeStringToBuf_space (k v : List Nat) (lvl : Nat) (color : Bool) :
    writeStringToBuf k v lvl color true = writeStringToBuf k v lvl color false ++ [32] := by
  simp [writeStringToBuf]

/-- The field loop is the single-space join of the per-field tokens. -/
theorem fieldsLoop_join (lvl : Nat) (color : Bool) :
    ∀ fields, fieldsLoop fields lvl color
      = joinSpace (fields.map (fun kv => writeToBuf kv.1 kv.2 lvl color false)) := by
  intro fields
  induction fields with
  | nil => rfl
  | cons kv rest ih =>
    obtain ⟨k, v⟩ := kv
    cases rest with
    | nil => simp [fieldsLoop, joinSpace]
    | cons kv2 rest2 =>
      simp only [fieldsLoop, List.isEmpty_cons, Bool.not_false, List.map_cons] at ih ⊢
      rw [writeToBuf_space, ih]
      simp [joinSpace, List.append_assoc]

/-! Lemmas for the coloring claim: which bytes can appear in each part of the
line.  The byte 0x1B (= 27) starts every ANSI escape sequence. -/

theorem notMemAppend {a : Nat} {A B : List Nat} (hA : a ∉ A) (hB : a ∉ B) : a ∉ A ++ B := by
  intro h
  rcases List.mem_append.mp h with h | h
  · exact hA h
  · exact hB h

theorem not_mem_escByte (b : Nat) : 27 ∉ escByte b := by
  rw [escByte]
  split_ifs with h1 h2 h3 h4 <;> simp [hexDigit] <;>
    first
    | omega
    | (split_ifs <;> omega)

theorem not_mem_quotedBodyAmended : ∀ s : List Nat, 27 ∉ s → 27 ∉ quotedBodyAmended s := by
  intro s
  induction s using stepInduction with
  | h0 => intro _; simp [quotedBodyAmended]
  | h1 b rest ihD ihR =>
    intro hs
    rw [List.mem_cons, not_or] at hs
    obtain ⟨hs1, hs2⟩ := hs
    by_cases hb : b < 0x80
    · by_cases hp : 0x20 ≤ b ∧ b ≠ 92 ∧ b ≠ 34
      · simp only [quotedBodyAmended, if_pos hb, if_pos hp, List.mem_cons, not_or]
        exact ⟨hs1, ihR hs2⟩
      · simp only [quotedBodyAmended, if_pos hb, if_neg hp]
        exact notMemAppend (not_mem_escByte b) (ihR hs2)
    · by_cases hf : (decodeRune (b :: rest)).1 = 0xFFFD
      · simp only [quotedBodyAmended, if_neg hb, hf, reduceIte]
        exact notMemAppend (by decide) (ihD fun hmem => hs2 (List.mem_of_mem_drop hmem))
      · simp only [quotedBodyAmended, if_neg hb, hf, reduceIte]
        refine notMemAppend ?_ (ihD fun hmem => hs2 (List.mem_of_mem_drop hmem))
        intro hmem
        rcases List.mem_cons.mp (List.mem_of_mem_take hmem) with h | h
        · exact hs1 h
        · exact hs2 h

theorem not_mem_escapeAndWriteString {s : List Nat} (h : 27 ∉ s) :
    27 ∉ escapeAndWriteString s := by
  by_cases he : hasEscapingRune s = true
  · rw [escapeAndWriteString, if_pos he, writeQuotedString_eq]
    intro hmem
    rcases List.mem_cons.mp hmem with h34 | hmem2
    · exact absurd h34 (by decide)
    · rcases List.mem_append.mp hmem2 with h1 | h2
      · exact not_mem_quotedBodyAmended s h h1
      · simp at h2
  · rw [escapeAndWriteString, if_neg he]
    exact h

theorem not_mem_itoaDigits : ∀ fuel n, 27 ∉ itoaDigits fuel n := by
  intro fuel
  induction fuel with
  | zero => intro n; simp [itoaDigits]
  | succ fuel ih =>
    intro n
    rw [itoaDigits]
    split_ifs with h
    · simp
      omega
    · refine notMemAppend (ih _) ?_
      simp
      omega

theorem not_mem_itoa (n : Nat) : 27 ∉ itoa n :=
  not_mem_itoaDigits _ _

theorem not_mem_appendInt (i : Int) : 27 ∉ appendInt i := by
  rw [appendInt]
  split_ifs with h
  · intro hmem
    rcases List.mem_cons.mp hmem with h45 | hmem2
    · exact absurd h45 (by decide)
    · exact not_mem_itoa _ hmem2
  · exact not_mem_itoa _

theorem not_mem_levelString (lvl : Nat) : 27 ∉ levelString lvl := by
  rw [levelString]
  split_ifs <;> decide

theorem not_mem_caller {frame : Option (List Nat × Nat)}
    (h : ∀ f ln, frame = some (f, ln) → 27 ∉ f) : 27 ∉ caller frame := by
  match frame with
  | none => decide
  | some (f, ln) =>
    rw [caller]
    exact notMemAppend (notMemAppend (h f ln rfl) (by decide)) (not_mem_itoa _)

theorem not_mem_writeValue {v : FieldValue} (h : 27 ∉ fvInput v) : 27 ∉ writeValue v := by
  match v with
  | .str s => exact not_mem_escapeAndWriteString h
  | .int i => exact not_mem_appendInt i
  | .float s => exact h
  | .stringer s => exact not_mem_escapeAndWriteString h
  | .other s => exact not_mem_escapeAndWriteString h

theorem not_mem_space_opt (sp : Bool) : 27 ∉ (if sp then [32] else ([] : List Nat)) := by
  cases sp <;> decide

theorem not_mem_writeToBuf {k : List Nat} {v : FieldValue} {lvl : Nat} {sp : Bool}
    (hk : 27 ∉ k) (hv : 27 ∉ fvInput v) : 27 ∉ writeToBuf k v lvl false sp := by
  rw [writeToBuf, if_neg (by simp)]
  exact notMemAppend (notMemAppend (notMemAppend (not_mem_escapeAndWriteString hk)
    (by decide)) (not_mem_writeValue hv)) (not_mem_space_opt sp)

theorem not_mem_writeStringToBuf {k v : List Nat} {lvl : Nat} {sp : Bool}
    (hk : 27 ∉ k) (hv : 27 ∉ v) : 27 ∉ writeStringToBuf k v lvl false sp := by
  rw [writeStringToBuf, if_neg (by simp)]
  exact notMemAppend (notMemAppend (notMemAppend (not_mem_escapeAndWriteString hk)
    (by decide)) (not_mem_escapeAndWriteString hv)) (not_mem_space_opt sp)

theorem not_mem_writeTimeToBuf {now : List Nat} {lvl : Nat} (h : 27 ∉ now) :
    27 ∉ writeTimeToBuf now lvl false := by
  rw [writeTimeToBuf, if_neg (by simp)]
  exact notMemAppend (notMemAppend (by decide) h) (by decide)

theorem not_mem_fieldsLoop {lvl : Nat} :
    ∀ fields : List (List Nat × FieldValue),
      (∀ kv ∈ fields, 27 ∉ kv.1 ∧ 27 ∉ fvInput kv.2) → 27 ∉ fieldsLoop fields lvl false := by
  intro fields
  induction fields with
  | nil => intro _; simp [fieldsLoop]
  | cons kv rest ih =>
    intro hkv
    obtain ⟨k, v⟩ := kv
    obtain ⟨hk, hv⟩ := hkv (k, v) (by simp)
    rw [fieldsLoop]
    exact notMemAppend (not_mem_writeToBuf hk hv)
      (ih fun kv2 hkv2 => hkv kv2 (by simp [hkv2]))

/-! Claim theorems about the line assembler, level filter, sink and caller. -/

/-- Claim C3 (confirmed): a `handleLog` call writes to the sink iff the record
level is at least the configured level, and a call below the configured level
does nothing at all — no buffer acquisition, no timestamp capture, no sink
write, no diagnostics, no buffer reset or return. -/
theorem C3_level_filter (l : Logger) (msg : List Nat) (lvl : Nat)
    (fields : List (List Nat × FieldValue)) (now : List Nat)
    (frame : Option (List Nat × Nat)) (sinkErr : Option (List Nat)) :
    (handleLog l msg lvl fields now frame sinkErr).sinkWrites.length
        = (if lvl < l.level then 0 else 1) ∧
      (lvl < l.level → handleLog l msg lvl fields now frame sinkErr = emptyEmit) := by
  constructor
  · by_cases h : lvl < l.level <;> simp [handleLog, h, emptyEmit]
  · intro h
    simp [handleLog, h]

/-- Witness for C3 at a concrete input: a debug record against an info
threshold does nothing. -/
theorem C3_level_filter_witness :
    handleLog ⟨1, false, false, [103]⟩ [109] 0 [] [84] none none = emptyEmit :=
  (C3_level_filter ⟨1, false, false, [103]⟩ [109] 0 [] [84] none none).2 (by decide)

/-- Claim C4 counterexample: with an empty field map the emitted line is not
the single-space join of the field tokens followed by the newline — the code
leaves a trailing space before the newline. -/
theorem C4_counterexample :
    (handleLog ⟨0, false, false, [103]⟩ [109] 1 [] [84] none none).sinkWrites.length = 1 ∧
      (handleLog ⟨0, false, false, [103]⟩ [109] 1 [] [84] none none).sinkWrites ≠
        [lineClaim ⟨0, false, false, [103]⟩ [109] 1 [] [84] none] := by
  constructor
  · simp [handleLog]
  · simp [handleLog, lineClaim, writeTimeToBuf, writeToBuf, writeStringToBuf, writeValue,
      escapeAndWriteString, hasEscapingRune, scanSteps, decodeRune, checkEscapingRune,
      levelString, joinSpace, fieldsLoop, tsKey, levelKey, messageKey, scopeKey,
      getColoredKey]

/-- Claim C4 (corrected, amended): every emission at or above the threshold
hands the sink exactly one byte string: the fields in the fixed order
(timestamp, level, message, scope, caller when enabled, then the variable
fields) joined by exactly one space, with a lone trailing space before the
terminating newline exactly when the variable-field map is empty. -/
theorem C4_line_structure (l : Logger) (msg : List Nat) (lvl : Nat)
    (fields : List (List Nat × FieldValue)) (now : List Nat)
    (frame : Option (List Nat × Nat)) (sinkErr : Option (List Nat))
    (h : l.level ≤ lvl) :
    (handleLog l msg lvl fields now frame sinkErr).sinkWrites =
      [lineAmended l msg lvl fields now frame] := by
  have h' : ¬ lvl < l.level := by omega
  simp only [handleLog, if_neg h']
  rw [fieldsLoop_join]
  cases hc : l.enableCaller <;> cases fields with
  | nil =>
    simp [lineAmended, hc, joinSpace, writeTimeToBuf, writeToBuf_space,
      writeStringToBuf_space, List.append_assoc]
  | cons kv rest =>
    simp [lineAmended, hc, joinSpace, writeTimeToBuf, writeToBuf_space,
      writeStringToBuf_space, List.append_assoc]

/-- Witness for C4 at a concrete input. -/
theorem C4_line_structure_witness :
    (handleLog ⟨0, false, false, [103]⟩ [109] 1 [] [84] none none).sinkWrites =
      [lineAmended ⟨0, false, false, [103]⟩ [109] 1 [] [84] none] :=
  C4_line_structure ⟨0, false, false, [103]⟩ [109] 1 [] [84] none none (by decide)

/-- Claim C6 (confirmed): `Fatal` emits its line through `handleLog` (subject
to the level filter) and terminates the process with exit status 1, while
`Debug`, `Info`, `Warn` and `Error` never terminate the process. -/
theorem C6_fatal_exit (l : Logger) (msg now : List Nat) (frame : Option (List Nat × Nat))
    (sinkErr : Option (List Nat)) :
    (Fatal l msg now frame sinkErr).2 = some 1 ∧
      (Fatal l msg now frame sinkErr).1 = handleLog l msg 4 [] now frame sinkErr ∧
      (Debug l msg now frame sinkErr).2 = none ∧
      (Info l msg now frame sinkErr).2 = none ∧
      (Warn l msg now frame sinkErr).2 = none ∧
      (Error l msg now frame sinkErr).2 = none :=
  ⟨rfl, rfl, rfl, rfl, rfl, rfl⟩

/-- Claim C8 (confirmed): a value outside the closed kind set is formatted by
the generic formatter and the result then goes through exactly the same
escaping as a string value — the fallback path equals the string path on the
formatted text. -/
theorem C8_fallback_escaping (k s : List Nat) (lvl : Nat) (color space : Bool) :
    writeToBuf k (FieldValue.other s) lvl color space
        = writeToBuf k (FieldValue.str s) lvl color space ∧
      writeValue (FieldValue.other s) = escapeAndWriteString s :=
  ⟨rfl, rfl⟩

/-- Claim C9 (confirmed): when the sink write fails, `handleLog` differs from
the successful run only by reporting the error once on the fallback diagnostic
channel; the line is still handed to the sink, and the buffer is still reset
and returned to the pool. -/
theorem C9_write_error_swallowed (l : Logger) (msg : List Nat) (lvl : Nat)
    (fields : List (List Nat × FieldValue)) (now : List Nat)
    (frame : Option (List Nat × Nat)) (e : List Nat) (h : l.level ≤ lvl) :
    handleLog l msg lvl fields now frame (some e) =
      { handleLog l msg lvl fields now frame none with
          diagnostics := [errorLoggingMsg e] } ∧
      (handleLog l msg lvl fields now frame (some e)).bufferReset = true ∧
      (handleLog l msg lvl fields now frame (some e)).bufferReturned = true ∧
      (handleLog l msg lvl fields now frame (some e)).sinkWrites
        = (handleLog l msg lvl fields now frame none).sinkWrites := by
  have h' : ¬ lvl < l.level := by omega
  refine ⟨?_, ?_, ?_, ?_⟩ <;> simp [handleLog, h']

/-- Witness for C9 at a concrete input. -/
theorem C9_write_error_swallowed_witness :
    handleLog ⟨1, false, false, [103]⟩ [109] 1 [] [84] none (some [101]) =
      { handleLog ⟨1, false, false, [103]⟩ [109] 1 [] [84] none none with
          diagnostics := [errorLoggingMsg [101]] } :=
  (C9_write_error_swallowed ⟨1, false, false, [103]⟩ [109] 1 [] [84] none [101] (by decide)).1

/-- Claim C10 (confirmed): when the stack walk fails, `caller` substitutes the
placeholder `???:0`, and a resolved frame always yields `file:line`. -/
theorem C10_caller_placeholder :
    caller none = [63, 63, 63, 58, 48] ∧
      ∀ file line, caller (some (file, line)) = file ++ [58] ++ itoa line :=
  ⟨rfl, fun _ _ => rfl⟩

/-! Claim theorems about the escaping core. -/

/-- Claim C1 counterexample: on the bytes of `"=�"` (a trigger character
followed by a literal replacement character, valid UTF-8) the quoted form is
not the form the claim describes — the three bytes of the literal U+FFFD are
not copied verbatim but rewritten to the escape `�`. -/
theorem C1_counterexample :
    hasEscapingRune [61, 239, 191, 189] = true ∧
      escapeAndWriteString [61, 239, 191, 189] ≠
        34 :: (quotedBodyClaim [61, 239, 191, 189] ++ [34]) := by
  constructor
  · simp [hasEscapingRune, scanSteps, decodeRune, checkEscapingRune, utf8Info]
  · simp [escapeAndWriteString, hasEscapingRune, scanSteps, decodeRune, checkEscapingRune,
      utf8Info, writeQuotedString, wqsLoop, quotedBodyClaim, escByte]

/-- Claim C1 (corrected, amended): for every input in which some rune triggers
quoting, the escaper appends a double-quote-wrapped body in which backslash and
double quote are backslash-escaped, newline, carriage return and tab use their
mnemonic escapes, every other byte below 0x20 becomes `\u00XX`, every decode
step yielding the replacement rune — every invalid sequence and every literal
U+FFFD — becomes `�`, and all other bytes are copied verbatim; unescaping
the quoted form recovers the input modulo replacement of exactly those steps
(the identity on a literal U+FFFD). -/
theorem C1_quoting_roundtrip (s : List Nat) (h : hasEscapingRune s = true) :
    escapeAndWriteString s = 34 :: (quotedBodyAmended s ++ [34]) ∧
      unquote (escapeAndWriteString s) = some (replaceInvalid s) := by
  have he : escapeAndWriteString s = writeQuotedString s := by
    simp [escapeAndWriteString, h]
  constructor
  · rw [he, writeQuotedString_eq]
  · rw [he]
    exact unquote_writeQuotedString s

/-- Witness for C1 at the one-byte input `" "`. -/
theorem C1_quoting_roundtrip_witness :
    hasEscapingRune [32] = true ∧
      (escapeAndWriteString [32] = 34 :: (quotedBodyAmended [32] ++ [34]) ∧
        unquote (escapeAndWriteString [32]) = some (replaceInvalid [32])) := by
  have h : hasEscapingRune [32] = true := by
    simp [hasEscapingRune, scanSteps, decodeRune, checkEscapingRune]
  exact ⟨h, C1_quoting_roundtrip [32] h⟩

/-- Claim C2 counterexample: the three bytes of a literal U+FFFD character
contain none of `'='`, `'"'`, space and form no invalid sequence, yet the
escaper quotes and rewrites them instead of appending them raw. -/
theorem C2_counterexample :
    scanSteps isTrigCharStep [239, 191, 189] = false ∧
      scanSteps isInvalidStep [239, 191, 189] = false ∧
      escapeAndWriteString [239, 191, 189] ≠ [239, 191, 189] := by
  refine ⟨?_, ?_, ?_⟩
  · simp [scanSteps, decodeRune, utf8Info, isTrigCharStep]
  · simp [scanSteps, decodeRune, utf8Info, isInvalidStep]
  · simp [escapeAndWriteString, hasEscapingRune, scanSteps, decodeRune, utf8Info,
      checkEscapingRune, writeQuotedString, wqsLoop]

/-- Claim C2 (corrected, amended): an input containing none of `'='`, `'"'`,
space, no invalid/undecodable sequence, and additionally no literal U+FFFD
character is appended raw — unquoted and unmodified. -/
theorem C2_fast_path (s : List Nat)
    (ht : scanSteps isTrigCharStep s = false)
    (hi : scanSteps isInvalidStep s = false)
    (hr : scanSteps isFFFDCharStep s = false) :
    escapeAndWriteString s = s := by
  apply escapeAndWriteString_fast
  rw [hasEscapingRune_split, ht, hi, hr]
  rfl

/-- Witness for C2 at the bytes of `"hi"`. -/
theorem C2_fast_path_witness : escapeAndWriteString [104, 105] = [104, 105] :=
  C2_fast_path [104, 105]
    (by simp [scanSteps, decodeRune, isTrigCharStep])
    (by simp [scanSteps, decodeRune, isInvalidStep])
    (by simp [scanSteps, decodeRune, isFFFDCharStep])

/-- Claim C5 counterexample: a valid-UTF-8 input with a raw newline and none of
the three trigger characters is nevertheless quoted when it also contains a
literal U+FFFD character. -/
theorem C5_counterexample :
    scanSteps isTrigCharStep [10, 239, 191, 189] = false ∧
      scanSteps isInvalidStep [10, 239, 191, 189] = false ∧
      scanSteps isControlStep [10, 239, 191, 189] = true ∧
      escapeAndWriteString [10, 239, 191, 189] ≠ [10, 239, 191, 189] := by
  refine ⟨?_, ?_, ?_, ?_⟩
  · simp [scanSteps, decodeRune, utf8Info, isTrigCharStep]
  · simp [scanSteps, decodeRune, utf8Info, isInvalidStep]
  · simp [scanSteps, decodeRune, utf8Info, isControlStep]
  · simp [escapeAndWriteString, hasEscapingRune, scanSteps, decodeRune, utf8Info,
      checkEscapingRune, writeQuotedString, wqsLoop, escByte]

/-- Claim C5 (corrected, amended): a valid-UTF-8 input that contains a control
rune below 0x20 but none of `'='`, `'"'`, space — and additionally no literal
U+FFFD character — takes the fast path: it is appended verbatim and unquoted,
its raw control bytes included. -/
theorem C5_control_fast_path (s : List Nat)
    (ht : scanSteps isTrigCharStep s = false)
    (hi : scanSteps isInvalidStep s = false)
    (hr : scanSteps isFFFDCharStep s = false)
    (hc : scanSteps isControlStep s = true) :
    escapeAndWriteString s = s := by
  apply escapeAndWriteString_fast
  rw [hasEscapingRune_split, ht, hi, hr]
  rfl

/-- Witness for C5 at the one-byte input containing a raw newline. -/
theorem C5_control_fast_path_witness : escapeAndWriteString [10] = [10] :=
  C5_control_fast_path [10]
    (by simp [scanSteps, decodeRune, isTrigCharStep])
    (by simp [scanSteps, decodeRune, isInvalidStep])
    (by simp [scanSteps, decodeRune, isFFFDCharStep])
    (by simp [scanSteps, decodeRune, isControlStep])
theorem colorLvlMap_benign {lvl : Nat} (h : lvl ≤ 4) :
    ∀ x ∈ colorLvlMap lvl, x < 128 ∧ checkEscapingRune x = false := by
  interval_cases lvl <;> decide

theorem hasEscapingRune_reset : hasEscapingRune reset = false := by
  simp [reset, hasEscapingRune, scanSteps, decodeRune, checkEscapingRune]

/-- A colored key whose bare key has no triggering rune passes the escaper
untouched: the appended bytes are literally the severity's color code, the key,
and the reset code. -/
theorem getColoredKey_fast {k : List Nat} {lvl : Nat} (hlvl : lvl ≤ 4)
    (hk : hasEscapingRune k = false) :
    escapeAndWriteString (getColoredKey k lvl) = colorLvlMap lvl ++ k ++ reset := by
  have hfast : hasEscapingRune (getColoredKey k lvl) = false := by
    rw [getColoredKey, List.append_assoc,
      hasEscapingRune_append_ascii _ _ (colorLvlMap_benign hlvl),
      hasEscapingRune_append_clean _ hk, hasEscapingRune_reset]
  rw [escapeAndWriteString_fast hfast, getColoredKey]

/-- Color-on shape of the timestamp writer: the wrap closes after the `'='`
that `tsKey` itself carries, before the timestamp value. -/
theorem writeTimeToBuf_colored (now : List Nat) (lvl : Nat) :
    writeTimeToBuf now lvl true = (colorLvlMap lvl ++ tsKey ++ reset) ++ now ++ [32] := by
  rw [writeTimeToBuf, if_pos rfl, getColoredKey]

/-- Color-on shape of `writeToBuf` for a trigger-free key. -/
theorem writeToBuf_colored {k : List Nat} {lvl : Nat} (v : FieldValue) (sp : Bool)
    (hlvl : lvl ≤ 4) (hk : hasEscapingRune k = false) :
    writeToBuf k v lvl true sp =
      (colorLvlMap lvl ++ k ++ reset) ++ [61] ++ writeValue v ++ (if sp then [32] else []) := by
  rw [writeToBuf, if_pos rfl, getColoredKey_fast hlvl hk]

/-- Color-on shape of `writeStringToBuf` for a trigger-free key. -/
theorem writeStringToBuf_colored {k : List Nat} {lvl : Nat} (v : List Nat) (sp : Bool)
    (hlvl : lvl ≤ 4) (hk : hasEscapingRune k = false) :
    writeStringToBuf k v lvl true sp =
      (colorLvlMap lvl ++ k ++ reset) ++ [61] ++ escapeAndWriteString v ++
        (if sp then [32] else []) := by
  rw [writeStringToBuf, if_pos rfl, getColoredKey_fast hlvl hk]

theorem hasEscapingRune_levelKey : hasEscapingRune levelKey = false := by
  simp [levelKey, hasEscapingRune, scanSteps, decodeRune, checkEscapingRune]

theorem hasEscapingRune_messageKey : hasEscapingRune messageKey = false := by
  simp [messageKey, hasEscapingRune, scanSteps, decodeRune, checkEscapingRune]

theorem hasEscapingRune_scopeKey : hasEscapingRune scopeKey = false := by
  simp [scopeKey, hasEscapingRune, scanSteps, decodeRune, checkEscapingRune]

theorem hasEscapingRune_callerKey : hasEscapingRune callerKey = false := by
  simp [callerKey, hasEscapingRune, scanSteps, decodeRune, checkEscapingRune]

/-- With color on and trigger-free keys, the variable-field loop is the
single-space join of tokens whose keys are literally color-wrapped. -/
theorem fieldsLoop_colored {lvl : Nat} (hlvl : lvl ≤ 4) :
    ∀ fields : List (List Nat × FieldValue),
      (∀ kv ∈ fields, hasEscapingRune kv.1 = false) →
      fieldsLoop fields lvl true =
        joinSpace (fields.map (fun kv =>
          (colorLvlMap lvl ++ kv.1 ++ reset) ++ [61] ++ writeValue kv.2)) := by
  intro fields hkeys
  rw [fieldsLoop_join]
  congr 1
  apply List.map_congr_left
  intro kv hkv
  rw [writeToBuf_colored kv.2 false hlvl (hkeys kv hkv)]
  simp

/-- Claim C7 (confirmed): with coloring enabled, the key of every field is
wrapped in the ANSI color code selected by the record's severity followed by
the reset code — stated for each of the three writer paths (`writeTimeToBuf`
for the timestamp key, where the reset closes after the `'='` that `tsKey`
itself carries; `writeToBuf` for the level field, the caller field and every
variable field; `writeStringToBuf` for the message and scope fields) and for
the whole emitted line, where every key region is literally
`color ++ key ++ reset` closing before the value, so the codes never leak into
a value or past the line.  With coloring disabled, no ANSI escape byte (0x1B)
appears anywhere in the emitted line provided the caller-supplied texts are
themselves free of it.  A key that itself needs quoting is escaped together
with its color codes inside the quoted key token, so the raw-wrap statements
assume trigger-free keys — which the four fixed keys are, as proved above. -/
theorem C7_color_wrapping :
    (∀ (now : List Nat) (lvl : Nat),
      writeTimeToBuf now lvl true = (colorLvlMap lvl ++ tsKey ++ reset) ++ now ++ [32]) ∧
    (∀ (k : List Nat) (v : FieldValue) (lvl : Nat) (sp : Bool),
      lvl ≤ 4 → hasEscapingRune k = false →
      writeToBuf k v lvl true sp =
        (colorLvlMap lvl ++ k ++ reset) ++ [61] ++ writeValue v ++
          (if sp then [32] else [])) ∧
    (∀ (k v : List Nat) (lvl : Nat) (sp : Bool), lvl ≤ 4 → hasEscapingRune k = false →
      writeStringToBuf k v lvl true sp =
        (colorLvlMap lvl ++ k ++ reset) ++ [61] ++ escapeAndWriteString v ++
          (if sp then [32] else [])) ∧
    (∀ (l : Logger) (msg : List Nat) (lvl : Nat)
        (fields : List (List Nat × FieldValue)) (now : List Nat)
        (frame : Option (List Nat × Nat)) (sinkErr : Option (List Nat)),
      l.enableColor = true → lvl ≤ 4 → l.level ≤ lvl →
      (∀ kv ∈ fields, hasEscapingRune kv.1 = false) →
      (handleLog l msg lvl fields now frame sinkErr).sinkWrites =
        [(colorLvlMap lvl ++ tsKey ++ reset) ++ now ++ [32] ++
          ((colorLvlMap lvl ++ levelKey ++ reset) ++ [61] ++
            escapeAndWriteString (levelString lvl) ++ [32]) ++
          ((colorLvlMap lvl ++ messageKey ++ reset) ++ [61] ++
            escapeAndWriteString msg ++ [32]) ++
          ((colorLvlMap lvl ++ scopeKey ++ reset) ++ [61] ++
            escapeAndWriteString l.scope ++ [32]) ++
          (if l.enableCaller then
            (colorLvlMap lvl ++ callerKey ++ reset) ++ [61] ++
              escapeAndWriteString (caller frame) ++ [32] else []) ++
          joinSpace (fields.map (fun kv =>
            (colorLvlMap lvl ++ kv.1 ++ reset) ++ [61] ++ writeValue kv.2)) ++ [10]]) ∧
    (∀ (l : Logger) (msg : List Nat) (lvl : Nat)
        (fields : List (List Nat × FieldValue)) (now : List Nat)
        (frame : Option (List Nat × Nat)) (sinkErr : Option (List Nat)),
      l.enableColor = false → 27 ∉ now → 27 ∉ msg → 27 ∉ l.scope →
      (∀ f ln, frame = some (f, ln) → 27 ∉ f) →
      (∀ kv ∈ fields, 27 ∉ kv.1 ∧ 27 ∉ fvInput kv.2) →
      ∀ w ∈ (handleLog l msg lvl fields now frame sinkErr).sinkWrites, 27 ∉ w) := by
  refine ⟨writeTimeToBuf_colored, ?_, ?_, ?_, ?_⟩
  · intro k v lvl sp hlvl hk
    exact writeToBuf_colored v sp hlvl hk
  · intro k v lvl sp hlvl hk
    exact writeStringToBuf_colored v sp hlvl hk
  · intro l msg lvl fields now frame sinkErr hcol hlvl hthr hkeys
    have h' : ¬ lvl < l.level := by omega
    simp only [handleLog, if_neg h', hcol]
    rw [writeTimeToBuf_colored,
      writeToBuf_colored (FieldValue.stringer (levelString lvl)) true hlvl
        hasEscapingRune_levelKey,
      writeStringToBuf_colored msg true hlvl hasEscapingRune_messageKey,
      writeStringToBuf_colored l.scope true hlvl hasEscapingRune_scopeKey,
      fieldsLoop_colored hlvl fields hkeys]
    cases hec : l.enableCaller
    · simp [writeValue, List.append_assoc]
    · rw [writeToBuf_colored (FieldValue.str (caller frame)) true hlvl
        hasEscapingRune_callerKey]
      simp [writeValue, List.append_assoc]
  · intro l msg lvl fields now frame sinkErr hcol hnow hmsg hscope hframe hfields w hw
    by_cases hfil : lvl < l.level
    · simp [handleLog, hfil, emptyEmit] at hw
    · simp only [handleLog, if_neg hfil, List.mem_singleton] at hw
      subst hw
      rw [hcol]
      refine notMemAppend (notMemAppend (notMemAppend (notMemAppend (notMemAppend
        (notMemAppend (not_mem_writeTimeToBuf hnow)
          (not_mem_writeToBuf (by decide) (not_mem_levelString lvl)))
        (not_mem_writeStringToBuf (by decide) hmsg))
        (not_mem_writeStringToBuf (by decide) hscope)) ?_)
        (not_mem_fieldsLoop fields hfields)) (by decide)
      cases hec : l.enableCaller
      · simp
      · simp only [if_pos rfl]
        exact not_mem_writeToBuf (by decide) (not_mem_caller hframe)

/-- Witness for C7 at concrete inputs: the colored timestamp key, an
info-colored `writeToBuf` and `writeStringToBuf` user key, a full colored
line, and a plain uncolored line. -/
theorem C7_color_wrapping_witness :
    writeTimeToBuf [84] 1 true = (colorLvlMap 1 ++ tsKey ++ reset) ++ [84] ++ [32] ∧
      writeToBuf [107] (FieldValue.str [118]) 1 true true =
        (colorLvlMap 1 ++ [107] ++ reset) ++ [61] ++ writeValue (FieldValue.str [118]) ++ [32] ∧
      writeStringToBuf [107] [118] 1 true false =
        (colorLvlMap 1 ++ [107] ++ reset) ++ [61] ++ escapeAndWriteString [118] ∧
      (handleLog ⟨1, true, false, [103]⟩ [109] 1 [] [84] none none).sinkWrites =
        [(colorLvlMap 1 ++ tsKey ++ reset) ++ [84] ++ [32] ++
          ((colorLvlMap 1 ++ levelKey ++ reset) ++ [61] ++
            escapeAndWriteString (levelString 1) ++ [32]) ++
          ((colorLvlMap 1 ++ messageKey ++ reset) ++ [61] ++
            escapeAndWriteString [109] ++ [32]) ++
          ((colorLvlMap 1 ++ scopeKey ++ reset) ++ [61] ++
            escapeAndWriteString [103] ++ [32]) ++ [10]] ∧
      ∀ w ∈ (handleLog ⟨1, false, false, [103]⟩ [109] 1 [] [84] none none).sinkWrites, 27 ∉ w := by
  have hk107 : hasEscapingRune [107] = false := by
    simp [hasEscapingRune, scanSteps, decodeRune, checkEscapingRune]
  refine ⟨C7_color_wrapping.1 [84] 1, ?_, ?_, ?_, ?_⟩
  · have h := C7_color_wrapping.2.1 [107] (FieldValue.str [118]) 1 true (by decide) hk107
    simpa using h
  · have h := C7_color_wrapping.2.2.1 [107] [118] 1 false (by decide) hk107
    simpa using h
  · have h := C7_color_wrapping.2.2.2.1 ⟨1, true, false, [103]⟩ [109] 1 [] [84] none none
      rfl (by decide) (by decide) (by simp)
    simpa [joinSpace, List.append_assoc] using h
  · exact C7_color_wrapping.2.2.2.2 ⟨1, false, false, [103]⟩ [109] 1 [] [84] none none rfl
      (by decide) (by decide) (by decide) (by simp) (by simp)

end Logf

